import Mathlib

/-!
Verification of the `single-bench` micro-benchmarking library.

The repository is a small C header library with three variants of a
`BENCH` macro:

* `src/include/bench.h` — the `BENCH` macro samples a monotonic clock
  (`struct timespec`) before and after the measured block on every
  iteration, computes the per-iteration delta with a split
  seconds/nanoseconds formula in `uint64_t` arithmetic, folds it into
  running `total`/`min`/`max` aggregates and prints a report
  (average with `printf` format `%7.2f`, i.e. two fractional digits).
* `src/unnamed/part_001` — a variant that stores the start timestamp in a
  file-scope global `__bench_start`, times the whole loop once, and prints
  with `%.3f` including a figure labelled `ops/ms` computed as
  `iterations * 1000.0 / (total_ns / 1000000.0)`.
* `src/unnamed/part_002` — a variant using absolute nanosecond timestamps
  (`__bench_get_ns`), a `uint32_t` loop counter compared against
  `(uint32_t)(iterations)`, and a throughput figure labelled `MOPS`
  computed as `(iterations) / (delta / 1e3)`.

Machine integers are modelled as `Nat`/`Int` with explicit reduction
modulo `2 ^ 64` (or `2 ^ 32`) exactly where the C code performs unsigned
wraparound; floating-point report values are modelled by their exact
rational values, with the fixed-precision rendering of `printf` modelled
as rounding to the format's number of fractional digits.
-/

namespace SingleBench

/-- One `struct timespec` value: `tv_sec` seconds and `tv_nsec`
nanoseconds.  The monotonic clocks read by the library only produce
non-negative fields, so both are modelled as naturals. -/
structure Timespec where
  sec : Nat
  nsec : Nat
  deriving Repr, DecidableEq

/-- Conversion of a signed C intermediate value to `uint64_t`: reduction
modulo `2 ^ 64`, mapping negative values into the upper range. -/
def toU64 (z : Int) : Nat := (z % (2 ^ 64)).toNat

/-- Reduction of an unsigned value modulo `2 ^ 64`, the wraparound of
`uint64_t` arithmetic on non-negative operands. -/
def u64 (n : Nat) : Nat := n % 2 ^ 64

/-- The C constant `UINT64_MAX`, the initial value of `_bench_min`. -/
def UINT64_MAX : Nat := 2 ^ 64 - 1

/-- The split per-iteration delta of `bench.h` (lines 59–60):
`((end.tv_sec - start.tv_sec) * 1000000000ULL + (end.tv_nsec - start.tv_nsec))`.
The subtractions happen in signed arithmetic and the result is converted
to `uint64_t`, i.e. reduced modulo `2 ^ 64`. -/
def splitDelta (s e : Timespec) : Nat :=
  toU64 (((e.sec : Int) - (s.sec : Int)) * 1000000000
          + ((e.nsec : Int) - (s.nsec : Int)))

/-- The absolute-nanoseconds timestamp of `part_002` (`__bench_get_ns`,
lines 43–47): `(uint64_t)ts.tv_sec * 1000000000 + (uint64_t)ts.tv_nsec`,
computed in `uint64_t` arithmetic. -/
def bench_get_ns (t : Timespec) : Nat := u64 (t.sec * 1000000000 + t.nsec)

/-- Unsigned 64-bit subtraction `a - b`, as in `part_002` line 82
(`__bench_end - __bench_start`). -/
def u64sub (a b : Nat) : Nat := toU64 ((a : Int) - (b : Int))

/-- The run delta of `part_002` (lines 81–82): the difference of the two
absolute `__bench_get_ns` timestamps in `uint64_t` arithmetic. -/
def absDelta (s e : Timespec) : Nat := u64sub (bench_get_ns e) (bench_get_ns s)

/-- A normalized timespec holding the absolute nanosecond value `ns`:
the form a monotonic clock source returns (`0 ≤ tv_nsec < 10 ^ 9`). -/
def mkTs (ns : Nat) : Timespec := ⟨ns / 1000000000, ns % 1000000000⟩

/-- The running aggregates of the `BENCH` macro of `bench.h` (line 43):
`_bench_total`, `_bench_min`, `_bench_max`, all `uint64_t`. -/
structure BenchAcc where
  total : Nat
  min : Nat
  max : Nat
  deriving Repr, DecidableEq

/-- Initial aggregates of `bench.h` line 43:
`_bench_min = UINT64_MAX, _bench_max = 0, _bench_total = 0`. -/
def benchInit : BenchAcc := ⟨0, UINT64_MAX, 0⟩

/-- One statistics update of `bench.h` (lines 63–66): fold the iteration
delta `d` into the aggregates; the `total` addition wraps in `uint64_t`. -/
def benchStep (acc : BenchAcc) (d : Nat) : BenchAcc :=
  { total := u64 (acc.total + d),
    min := if d < acc.min then d else acc.min,
    max := if d > acc.max then d else acc.max }

/-- Folding a whole list of per-iteration samples into the aggregates,
starting from the initial state of `bench.h` line 43. -/
def accFold (samples : List Nat) : BenchAcc := samples.foldl benchStep benchInit

/-- One iteration of the `BENCH` loop of `bench.h` (lines 46–67) against
a timing source `clock` mapping the call index to the timespec returned:
iteration `k` performs the start read (call `2*k`), runs the measured
block once, performs the end read (call `2*k + 1`), and folds the split
delta into the aggregates. -/
def benchIter (clock : Nat → Timespec) (block : α → α) (k : Nat)
    (p : BenchAcc × α) : BenchAcc × α :=
  (benchStep p.1 (splitDelta (clock (2 * k)) (clock (2 * k + 1))), block p.2)

/-- The full measurement loop of the `BENCH` macro of `bench.h`: run the
block and fold one sample per iteration `k ∈ [0, iterations)`. -/
def benchRunFull (clock : Nat → Timespec) (iterations : Nat)
    (block : α → α) (s : α) : BenchAcc × α :=
  (List.range iterations).foldl (fun p k => benchIter clock block k p) (benchInit, s)

/-- The list of per-iteration deltas a run observes. -/
def runDeltas (clock : Nat → Timespec) (iterations : Nat) : List Nat :=
  (List.range iterations).map (fun k => splitDelta (clock (2 * k)) (clock (2 * k + 1)))

/-- The finalized aggregates of a `BENCH` run of `bench.h`. -/
def benchRun (clock : Nat → Timespec) (iterations : Nat) : BenchAcc :=
  (benchRunFull clock iterations id ()).1

/-- The fields printed by the report of `bench.h` (lines 70–75): the
total, min and max aggregates and the `Runs` count; the printed average
is `(double)_bench_total / iterations`. -/
structure BenchReport where
  total : Nat
  minv : Nat
  maxv : Nat
  runs : Nat
  deriving Repr, DecidableEq

/-- The whole `BENCH` macro of `bench.h` (lines 41–76): run the loop,
then unconditionally print the report.  `Option` records whether a
report is emitted; the macro has no rejection path, so the result is
always `some`. -/
def benchMacro (clock : Nat → Timespec) (iterations : Nat) : Option BenchReport :=
  let acc := benchRun clock iterations
  some ⟨acc.total, acc.min, acc.max, iterations⟩

theorem accFold_nil : accFold [] = benchInit := rfl

/-- The split delta on normalized timespecs is the modular difference of
the absolute nanosecond values. -/
theorem splitDelta_mkTs (a b : Nat) :
    splitDelta (mkTs a) (mkTs b) = toU64 ((b : Int) - (a : Int)) := by
  unfold splitDelta mkTs toU64
  congr 2
  push_cast
  omega

/-- Claim C9: for timespec values with `0 ≤ tv_nsec < 10 ^ 9`, the split
seconds/nanoseconds delta of `bench.h` (lines 59–60) agrees with the
absolute-timestamp subtraction of `part_002` (lines 43–47 and 81–82)
modulo `2 ^ 64`, including the borrow case `end.tv_nsec < start.tv_nsec`. -/
theorem c9_splitDelta_eq_absDelta (s e : Timespec)
    (hs : s.nsec < 1000000000) (he : e.nsec < 1000000000) :
    splitDelta s e = absDelta s e := by
  unfold splitDelta absDelta u64sub bench_get_ns u64 toU64
  congr 1
  push_cast
  have lhs_eq : (((e.sec : Int) - (s.sec : Int)) * 1000000000
      + ((e.nsec : Int) - (s.nsec : Int)))
      = ((e.sec : Int) * 1000000000 + (e.nsec : Int))
        - ((s.sec : Int) * 1000000000 + (s.nsec : Int)) := by ring
  rw [lhs_eq, ← Int.sub_emod]

/-- Concrete instance of claim C9 with a nanosecond borrow:
start `{sec := 3, nsec := 900000000}`, end `{sec := 4, nsec := 100000000}`,
where `end.tv_nsec < start.tv_nsec`. -/
theorem c9_witness :
    (Timespec.mk 3 900000000).nsec < 1000000000 ∧
    (Timespec.mk 4 100000000).nsec < 1000000000 ∧
    splitDelta (Timespec.mk 3 900000000) (Timespec.mk 4 100000000)
      = absDelta (Timespec.mk 3 900000000) (Timespec.mk 4 100000000) := by
  refine ⟨by decide, by decide, ?_⟩
  exact c9_splitDelta_eq_absDelta _ _ (by decide) (by decide)

/-- The process-global start timestamp of `part_001` (line 18):
`static struct timespec __bench_start;`, modelled as an explicit state
record threaded through the variant's operations. -/
structure Part1Global where
  bench_start : Timespec
  deriving Repr, DecidableEq

/-- The `bench_start` function of `part_001` (lines 20–22): overwrite the
global with the current clock reading `now`. -/
def part1_bench_start (g : Part1Global) (now : Timespec) : Part1Global :=
  { g with bench_start := now }

/-- The `bench_end` function of `part_001` (lines 24–30): read the clock
and compute the split nanosecond delta against the global start. -/
def part1_bench_end (g : Part1Global) (now : Timespec) : Nat :=
  splitDelta g.bench_start now

/-- The `BENCH` macro of `part_001` (lines 41–49): one `bench_start`
call, the loop running the block `iterations` times, one `bench_end`
call.  Returns the final global state, the measured nanosecond total and
the final block state. -/
def part1BENCH (g : Part1Global) (startNow endNow : Timespec)
    (iterations : Nat) (block : α → α) (s : α) : Part1Global × Nat × α :=
  let g1 := part1_bench_start g startNow
  let s1 := block^[iterations] s
  let t := part1_bench_end g1 endNow
  (g1, t, s1)

/-- Truncation of a value to `uint32_t`, the cast `(uint32_t)(iterations)`
of `part_002` line 76. -/
def c_uint32 (n : Nat) : Nat := n % 2 ^ 32

/-- The measurement loop of `part_002` (lines 76–78):
`for (uint32_t i = 0; i < (uint32_t)(iterations); ++i) body`, with the
counter incremented in `uint32_t` arithmetic.  The first argument is
explicit fuel bounding the recursion depth only; `part2Run` supplies
enough for the loop to exit on its own guard.  Returns the final block
state and the number of times the block ran. -/
def part2Loop (block : α → α) : Nat → Nat → Nat → α → α × Nat
  | 0, _, _, s => (s, 0)
  | fuel + 1, i, bound, s =>
    if i < bound then
      let r := part2Loop block fuel (c_uint32 (i + 1)) bound (block s)
      (r.1, r.2 + 1)
    else (s, 0)

/-- The whole measurement loop of `part_002`'s `BENCH` for a given
`iterations` argument: counter starts at `0`, bound is the truncated
`(uint32_t)(iterations)`. -/
def part2Run (block : α → α) (iterations : Nat) (s : α) : α × Nat :=
  part2Loop block (c_uint32 iterations + 1) 0 (c_uint32 iterations) s

/-- The divisor of `part_002`'s printed average (line 88):
`(double)__bench_delta / (iterations)` divides by the untruncated
`iterations` value. -/
def part2AvgDivisor (iterations : Nat) : Nat := iterations

/-- The exact value of the figure `part_001`'s `bench_print` (line 37)
prints under the label `ops/ms`:
`iterations * 1000.0 / (total_ns / 1000000.0)`, modelled exactly over ℚ. -/
def part1ThroughputPrinted (total_ns iterations : Nat) : ℚ :=
  (iterations : ℚ) * 1000 / ((total_ns : ℚ) / 1000000)

/-- Modelled from the spec: operations per millisecond, the claim's
formula `iterations / (total_ns / 10 ^ 6)` for the figure labelled
`ops/ms`. -/
def opsPerMillisecond (total_ns iterations : Nat) : ℚ :=
  (iterations : ℚ) / ((total_ns : ℚ) / 10 ^ 6)

/-- The exact value of the figure `part_002` (line 89) prints under the
label `MOPS`: `(iterations) / (__bench_delta / 1e3)`, modelled over ℚ. -/
def part2ThroughputPrinted (delta_ns iterations : Nat) : ℚ :=
  (iterations : ℚ) / ((delta_ns : ℚ) / 1000)

/-- Modelled from the spec: the claim's formula for the `MOPS` figure,
`iterations / (delta_ns / 10 ^ 3)`. -/
def mopsClaimed (delta_ns iterations : Nat) : ℚ :=
  (iterations : ℚ) / ((delta_ns : ℚ) / 10 ^ 3)

/-- The integer `printf` works from when rendering a non-negative value
with `k` fractional digits (`%.kf`): the value scaled by `10 ^ k` and
rounded to the nearest integer. -/
def scaledRounded (q : ℚ) (k : Nat) : Int := round (q * 10 ^ k)

/-- The decimal string `printf` produces for a non-negative value with
format `%.kf`: integer part, a dot, and `k` zero-padded fractional
digits.  Width padding (the `7` of `%7.2f`) is cosmetic and omitted. -/
def formatFixed (q : ℚ) (k : Nat) : String :=
  let n := (scaledRounded q k).toNat
  let ip := n / 10 ^ k
  let fp := n % 10 ^ k
  let fs := toString fp
  let pad := String.mk (List.replicate (k - fs.length) '0')
  toString ip ++ "." ++ pad ++ fs

/-- The average as printed by `bench.h` line 72:
`(double)_bench_total / iterations` rendered with `%7.2f`, i.e. two
fractional digits. -/
def benchAvgRendered (total iterations : Nat) : String :=
  formatFixed ((total : ℚ) / (iterations : ℚ)) 2

/-- The average as printed by `part_001` line 36 and `part_002` line 88:
`%.3f`, i.e. three fractional digits. -/
def part1AvgRendered (total iterations : Nat) : String :=
  formatFixed ((total : ℚ) / (iterations : ℚ)) 3

/-- Claim C1: `bench.h` applies no NonMonotonicSample policy.  At the
failing input — one iteration whose start sample is `{sec := 1, nsec := 0}`
and whose end sample is `{sec := 0, nsec := 0}` (end earlier than start)
— the unsigned subtraction wraps to `2 ^ 64 - 10 ^ 9` and that
near-`UINT64_MAX` delta is folded into `total`, `min` and `max`; nothing
clamps the delta to zero, flags the anomaly or aborts the run. -/
theorem c1_unsigned_wraparound_folded :
    benchRun (fun i => if i = 0 then ⟨1, 0⟩ else ⟨0, 0⟩) 1
        = ⟨18446744072709551616, 18446744072709551616, 18446744072709551616⟩ ∧
    18446744072709551616 = 2 ^ 64 - 10 ^ 9 ∧
    UINT64_MAX - 18446744072709551616 < 10 ^ 9 := by
  refine ⟨by decide, by norm_num, by decide⟩

/-- Claim C2: the `BENCH` macro of `bench.h` has no rejection path.  With
`iterations = 0` the loop body never runs and the macro still
unconditionally prints a report — with `total = 0`, `min = UINT64_MAX`,
`max = 0` and `Runs = 0`, whose average divides the total by zero — so no
ConfigurationError is signalled and a degenerate report is emitted. -/
theorem c2_zero_iterations_emits_report :
    benchMacro (fun i => mkTs i) 0 = some ⟨0, UINT64_MAX, 0, 0⟩ ∧
    (benchMacro (fun i => mkTs i) 0).isSome = true := by
  exact ⟨by decide, by decide⟩

/-- Claim C7 counterexample: at `total_ns = 2000000` (two milliseconds)
and `iterations = 1000`, true operations per millisecond is `500`, but
`part_001` prints `500000` under the `ops/ms` label — the claim that the
printed figure equals `iterations / (total_ns / 10 ^ 6)` is false. -/
theorem c7_ops_per_ms_counterexample :
    part1ThroughputPrinted 2000000 1000 = 500000 ∧
    opsPerMillisecond 2000000 1000 = 500 ∧
    part1ThroughputPrinted 2000000 1000 ≠ opsPerMillisecond 2000000 1000 := by
  refine ⟨?_, ?_, ?_⟩ <;> norm_num [part1ThroughputPrinted, opsPerMillisecond]

/-- Claim C7 (amended): `part_002`'s `MOPS` figure equals the claimed
`iterations / (delta_ns / 10 ^ 3)`, but the figure `part_001` labels
`ops/ms` equals `1000` times `iterations / (total_ns / 10 ^ 6)` — it is
operations per second, not per millisecond. -/
theorem c7_throughput_formulas (total_ns delta_ns iterations : Nat) :
    part1ThroughputPrinted total_ns iterations
        = 1000 * opsPerMillisecond total_ns iterations ∧
    part2ThroughputPrinted delta_ns iterations = mopsClaimed delta_ns iterations := by
  constructor
  · unfold part1ThroughputPrinted opsPerMillisecond
    norm_num
    ring
  · unfold part2ThroughputPrinted mopsClaimed
    norm_num

/-- The average of the C8 accumulator scaled for two fractional digits:
`5000 / 1000` scaled by `10 ^ 2` rounds to `500`. -/
theorem avgScaled_two :
    scaledRounded (((5000 : ℕ) : ℚ) / ((1000 : ℕ) : ℚ)) 2 = 500 := by
  unfold scaledRounded
  have h : (((5000 : ℕ) : ℚ) / ((1000 : ℕ) : ℚ)) * 10 ^ 2 = 500 := by norm_num
  rw [h, round_eq, Int.floor_eq_iff] <;> norm_num

/-- The average of the C8 accumulator scaled for three fractional digits:
`5000 / 1000` scaled by `10 ^ 3` rounds to `5000`. -/
theorem avgScaled_three :
    scaledRounded (((5000 : ℕ) : ℚ) / ((1000 : ℕ) : ℚ)) 3 = 5000 := by
  unfold scaledRounded
  have h : (((5000 : ℕ) : ℚ) / ((1000 : ℕ) : ℚ)) * 10 ^ 3 = 5000 := by norm_num
  rw [h, round_eq, Int.floor_eq_iff] <;> norm_num

/-- Claim C8 counterexample: with the accumulator `total = 5000`,
`count = 1000`, the `BENCH` macro of `bench.h` renders the average with
`printf` format `%7.2f` — two fractional digits — producing `5.00`, not
`5.000`. -/
theorem c8_two_digit_counterexample :
    benchAvgRendered 5000 1000 = "5.00" ∧ benchAvgRendered 5000 1000 ≠ "5.000" := by
  unfold benchAvgRendered formatFixed
  rw [avgScaled_two]
  exact ⟨by decide, by decide⟩

/-- Claim C8 (amended): given `total = 5000` and `count = 1000` the
average is the exact value `5`; the `part_001` and `part_002` variants
(`%.3f`) render it with three fractional digits as `5.000`, while
`bench.h` (`%7.2f`) renders it with two as `5.00`. -/
theorem c8_avg_rendering :
    part1AvgRendered 5000 1000 = "5.000" ∧
    benchAvgRendered 5000 1000 = "5.00" ∧
    (((5000 : ℕ) : ℚ) / ((1000 : ℕ) : ℚ)) = 5 := by
  refine ⟨?_, ?_, by norm_num⟩
  · unfold part1AvgRendered formatFixed
    rw [avgScaled_three]
    decide
  · unfold benchAvgRendered formatFixed
    rw [avgScaled_two]
    decide

theorem benchRunFull_succ (clock : Nat → Timespec) (n : Nat) (block : α → α) (s : α) :
    benchRunFull clock (n + 1) block s
      = benchIter clock block n (benchRunFull clock n block s) := by
  unfold benchRunFull
  rw [List.range_succ, List.foldl_append]
  rfl

theorem runDeltas_length (clock : Nat → Timespec) (n : Nat) :
    (runDeltas clock n).length = n := by
  unfold runDeltas
  simp

theorem runDeltas_succ (clock : Nat → Timespec) (n : Nat) :
    runDeltas clock (n + 1)
      = runDeltas clock n ++ [splitDelta (clock (2 * n)) (clock (2 * n + 1))] := by
  unfold runDeltas
  rw [List.range_succ, List.map_append]
  rfl

theorem benchRunFull_fst_eq_accFold (clock : Nat → Timespec) (n : Nat)
    (block : α → α) (s : α) :
    (benchRunFull clock n block s).1 = accFold (runDeltas clock n) := by
  induction n with
  | zero => rfl
  | succ m ih =>
    rw [benchRunFull_succ, runDeltas_succ]
    unfold accFold at ih ⊢
    rw [List.foldl_append, ← ih]
    rfl

theorem benchRun_eq_accFold (clock : Nat → Timespec) (n : Nat) :
    benchRun clock n = accFold (runDeltas clock n) := by
  unfold benchRun
  exact benchRunFull_fst_eq_accFold clock n id ()

theorem foldl_benchStep_total (l : List Nat) : ∀ acc : BenchAcc,
    acc.total < 2 ^ 64 →
    (l.foldl benchStep acc).total = (acc.total + l.sum) % 2 ^ 64 := by
  have hp : (2 : ℕ) ^ 64 = 18446744073709551616 := by norm_num
  induction l with
  | nil =>
    intro acc h
    simp only [List.foldl_nil, List.sum_nil, Nat.add_zero]
    exact (Nat.mod_eq_of_lt h).symm
  | cons d t ih =>
    intro acc h
    rw [List.foldl_cons, List.sum_cons]
    have hlt : (benchStep acc d).total < 2 ^ 64 := by
      simp only [benchStep, u64]
      omega
    rw [ih (benchStep acc d) hlt]
    simp only [benchStep, u64]
    rw [hp]
    omega

theorem foldl_benchStep_min (l : List Nat) : ∀ acc : BenchAcc,
    ((l.foldl benchStep acc).min = acc.min ∨ (l.foldl benchStep acc).min ∈ l) ∧
    (l.foldl benchStep acc).min ≤ acc.min ∧
    ∀ x ∈ l, (l.foldl benchStep acc).min ≤ x := by
  induction l with
  | nil =>
    intro acc
    exact ⟨Or.inl rfl, le_refl _, by simp⟩
  | cons d t ih =>
    intro acc
    rw [List.foldl_cons]
    obtain ⟨hmem, hle, hall⟩ := ih (benchStep acc d)
    have hstep : (benchStep acc d).min = if d < acc.min then d else acc.min := rfl
    have hstep_le_acc : (benchStep acc d).min ≤ acc.min := by
      rw [hstep]; split_ifs with hd <;> omega
    have hstep_le_d : (benchStep acc d).min ≤ d := by
      rw [hstep]; split_ifs with hd <;> omega
    refine ⟨?_, le_trans hle hstep_le_acc, ?_⟩
    · rcases hmem with h | h
      · rw [h, hstep]
        split_ifs with hd
        · exact Or.inr (List.mem_cons_self _ _)
        · exact Or.inl rfl
      · exact Or.inr (List.mem_cons_of_mem _ h)
    · intro x hx
      rcases List.mem_cons.mp hx with hxd | hx'
      · rw [hxd]
        exact le_trans hle hstep_le_d
      · exact hall x hx'

theorem foldl_benchStep_max (l : List Nat) : ∀ acc : BenchAcc,
    ((l.foldl benchStep acc).max = acc.max ∨ (l.foldl benchStep acc).max ∈ l) ∧
    acc.max ≤ (l.foldl benchStep acc).max ∧
    ∀ x ∈ l, x ≤ (l.foldl benchStep acc).max := by
  induction l with
  | nil =>
    intro acc
    exact ⟨Or.inl rfl, le_refl _, by simp⟩
  | cons d t ih =>
    intro acc
    rw [List.foldl_cons]
    obtain ⟨hmem, hle, hall⟩ := ih (benchStep acc d)
    have hstep : (benchStep acc d).max = if d > acc.max then d else acc.max := rfl
    have hacc_le_step : acc.max ≤ (benchStep acc d).max := by
      rw [hstep]; split_ifs with hd <;> omega
    have hd_le_step : d ≤ (benchStep acc d).max := by
      rw [hstep]; split_ifs with hd <;> omega
    refine ⟨?_, le_trans hacc_le_step hle, ?_⟩
    · rcases hmem with h | h
      · rw [h, hstep]
        split_ifs with hd
        · exact Or.inr (List.mem_cons_self _ _)
        · exact Or.inl rfl
      · exact Or.inr (List.mem_cons_of_mem _ h)
    · intro x hx
      rcases List.mem_cons.mp hx with hxd | hx'
      · rw [hxd]
        exact le_trans hd_le_step hle
      · exact hall x hx'

theorem accFold_spec (l : List Nat) (hne : l ≠ [])
    (hb : ∀ x ∈ l, x < 2 ^ 64) :
    (accFold l).total = l.sum % 2 ^ 64 ∧
    ((accFold l).min ∈ l ∧ ∀ x ∈ l, (accFold l).min ≤ x) ∧
    ((accFold l).max ∈ l ∧ ∀ x ∈ l, x ≤ (accFold l).max) := by
  obtain ⟨x0, hx0⟩ := List.exists_mem_of_ne_nil l hne
  have hp : (2 : ℕ) ^ 64 = 18446744073709551616 := by norm_num
  have hfold : accFold l = l.foldl benchStep benchInit := rfl
  refine ⟨?_, ?_, ?_⟩
  · have h := foldl_benchStep_total l benchInit (by norm_num [benchInit])
    simpa [accFold, benchInit] using h
  · obtain ⟨hmem, _, hall⟩ := foldl_benchStep_min l benchInit
    rw [hfold]
    rcases hmem with h | h
    · have hx0le : (l.foldl benchStep benchInit).min ≤ x0 := hall x0 hx0
      have hx0lt : x0 < 2 ^ 64 := hb x0 hx0
      have hbi : benchInit.min = 2 ^ 64 - 1 := rfl
      have hx0eq : (l.foldl benchStep benchInit).min = x0 := by
        rw [h, hbi]
        rw [h, hbi] at hx0le
        rw [hp] at hx0le hx0lt ⊢
        omega
      exact ⟨by rw [hx0eq]; exact hx0, hall⟩
    · exact ⟨h, hall⟩
  · obtain ⟨hmem, _, hall⟩ := foldl_benchStep_max l benchInit
    rw [hfold]
    rcases hmem with h | h
    · have hx0le : x0 ≤ (l.foldl benchStep benchInit).max := hall x0 hx0
      have hbz : benchInit.max = 0 := rfl
      have hx0eq : (l.foldl benchStep benchInit).max = x0 := by
        rw [h, hbz]
        rw [h, hbz] at hx0le
        omega
      exact ⟨by rw [hx0eq]; exact hx0, hall⟩
    · exact ⟨h, hall⟩

/-- Claim C4 counterexample: folding the two samples `2 ^ 63` and
`2 ^ 63` (each a representable `uint64_t` value) from the initial state
gives `total = 0`, not the mathematical sum `2 ^ 64`: the `uint64_t`
addition `total += s` of `bench.h` line 63 wraps around. -/
theorem c4_total_overflow_counterexample :
    (accFold [2 ^ 63, 2 ^ 63]).total = 0 ∧
    List.sum [2 ^ 63, 2 ^ 63] = 2 ^ 64 ∧
    (accFold [2 ^ 63, 2 ^ 63]).total ≠ List.sum [2 ^ 63, 2 ^ 63] := by
  refine ⟨by decide, by norm_num, by decide⟩

/-- Claim C4 (amended): folding a non-empty list of `uint64_t` samples
from the initial state `total = 0, min = UINT64_MAX, max = 0` yields
`min` and `max` equal to the exact extrema of the samples, and `total`
equal to the sum reduced modulo `2 ^ 64` — hence equal to the exact sum
exactly when that sum fits in 64 bits. -/
theorem c4_accumulator_fold (l : List Nat) (hne : l ≠ [])
    (hb : ∀ x ∈ l, x < 2 ^ 64) :
    (accFold l).total = l.sum % 2 ^ 64 ∧
    (l.sum < 2 ^ 64 → (accFold l).total = l.sum) ∧
    ((accFold l).min ∈ l ∧ ∀ x ∈ l, (accFold l).min ≤ x) ∧
    ((accFold l).max ∈ l ∧ ∀ x ∈ l, x ≤ (accFold l).max) := by
  obtain ⟨h1, h2, h3⟩ := accFold_spec l hne hb
  refine ⟨h1, fun hs => ?_, h2, h3⟩
  rw [h1]
  exact Nat.mod_eq_of_lt hs

/-- Concrete instance of claim C4 on the samples `[3, 12, 5]`. -/
theorem c4_witness :
    (accFold [3, 12, 5]).total = [3, 12, 5].sum % 2 ^ 64 ∧
    ((accFold [3, 12, 5]).min ∈ [3, 12, 5] ∧
      ∀ x ∈ [3, 12, 5], (accFold [3, 12, 5]).min ≤ x) ∧
    ((accFold [3, 12, 5]).max ∈ [3, 12, 5] ∧
      ∀ x ∈ [3, 12, 5], x ≤ (accFold [3, 12, 5]).max) := by
  have h := c4_accumulator_fold [3, 12, 5] (by decide) (by decide)
  exact ⟨h.1, h.2.2.1, h.2.2.2⟩

theorem part2Loop_spec (block : α → α) :
    ∀ (fuel i bound : Nat) (s : α), i ≤ bound → bound < 2 ^ 32 →
    bound - i < fuel →
    part2Loop block fuel i bound s = (block^[bound - i] s, bound - i) := by
  intro fuel
  induction fuel with
  | zero =>
    intro i bound s h1 h2 h3
    omega
  | succ f ih =>
    intro i bound s h1 h2 h3
    by_cases hlt : i < bound
    · have hc : c_uint32 (i + 1) = i + 1 := by
        unfold c_uint32
        exact Nat.mod_eq_of_lt (by omega)
      have hrec := ih (i + 1) bound (block s) (by omega) h2 (by omega)
      rw [part2Loop, if_pos hlt]
      simp only [hc, hrec]
      have he : bound - i = (bound - (i + 1)) + 1 := by omega
      rw [he, Function.iterate_succ_apply]
    · rw [part2Loop, if_neg hlt]
      have h0 : bound - i = 0 := by omega
      rw [h0]
      rfl

/-- Claim C10: in `part_002`'s `BENCH`, the loop bound is the truncation
`(uint32_t)(iterations)` (line 76), so the block executes exactly
`iterations mod 2 ^ 32` times, while the printed average (line 88)
divides by the untruncated `iterations`.  Hence the executed count
matches the statistics divisor exactly when `iterations < 2 ^ 32`, and
differs from it whenever `iterations ≥ 2 ^ 32`. -/
theorem c10_truncated_loop_count (iterations : Nat) (block : α → α) (s : α) :
    (part2Run block iterations s).2 = iterations % 2 ^ 32 ∧
    (part2Run block iterations s).1 = block^[iterations % 2 ^ 32] s ∧
    (iterations < 2 ^ 32 →
      (part2Run block iterations s).2 = part2AvgDivisor iterations) ∧
    (2 ^ 32 ≤ iterations →
      (part2Run block iterations s).2 ≠ part2AvgDivisor iterations) := by
  have hblt : c_uint32 iterations < 2 ^ 32 := Nat.mod_lt _ (by norm_num)
  have h := part2Loop_spec block (c_uint32 iterations + 1) 0 (c_uint32 iterations) s
      (Nat.zero_le _) hblt (by omega)
  unfold part2Run
  rw [h]
  simp only [Nat.sub_zero]
  unfold c_uint32 part2AvgDivisor
  refine ⟨rfl, rfl, fun hlt => Nat.mod_eq_of_lt hlt, fun hge => ?_⟩
  have hm := Nat.mod_lt iterations (show 0 < 2 ^ 32 by norm_num)
  omega

/-- Concrete instance of claim C10 at `iterations = 2 ^ 32`: the block
executes zero times while the printed average divides by `2 ^ 32`. -/
theorem c10_witness :
    (part2Run Nat.succ 4294967296 (0 : Nat)).2 = 4294967296 % 2 ^ 32 ∧
    (part2Run Nat.succ 4294967296 (0 : Nat)).2 ≠ part2AvgDivisor 4294967296 := by
  have h := c10_truncated_loop_count 4294967296 Nat.succ 0
  exact ⟨h.1, h.2.2.2 (by norm_num)⟩

theorem fake_delta (t k : Nat) :
    splitDelta (mkTs (t + 2 * k)) (mkTs (t + (2 * k + 1))) = 1 := by
  rw [splitDelta_mkTs]
  unfold toU64
  have h : ((t + (2 * k + 1) : ℕ) : ℤ) - ((t + 2 * k : ℕ) : ℤ) = 1 := by
    push_cast
    ring
  rw [h]
  decide

theorem benchStep_init_one : benchStep benchInit 1 = ⟨1, 1, 1⟩ := by decide

theorem benchStep_ones (c : Nat) :
    benchStep ⟨c, 1, 1⟩ 1 = ⟨(c + 1) % 2 ^ 64, 1, 1⟩ := by
  unfold benchStep u64
  norm_num

/-- A `BENCH` run of `bench.h` against the fake monotonic source that
returns `t, t + 1, t + 2, ...` on successive calls: every per-iteration
delta is `1`, so after `n` iterations the aggregates are
`total = n mod 2 ^ 64`, `min = max = 1`, and the block has been applied
`n` times. -/
theorem fake_run (t : Nat) (block : α → α) (s : α) (n : Nat) :
    benchRunFull (fun i => mkTs (t + i)) n block s
      = (if n = 0 then benchInit else ⟨n % 2 ^ 64, 1, 1⟩, block^[n] s) := by
  induction n with
  | zero => rfl
  | succ m ih =>
    rw [benchRunFull_succ, ih]
    simp only [benchIter]
    rw [fake_delta t m]
    by_cases hm : m = 0
    · subst hm
      simp only [if_pos rfl, reduceIte]
      rw [benchStep_init_one]
      norm_num [Function.iterate_succ_apply', Prod.ext_iff]
    · rw [if_neg hm, if_neg (Nat.succ_ne_zero m)]
      rw [benchStep_ones]
      have hp : (2 : ℕ) ^ 64 = 18446744073709551616 := by norm_num
      have hmod : (m % 2 ^ 64 + 1) % 2 ^ 64 = (m + 1) % 2 ^ 64 := by
        rw [hp]
        omega
      rw [hmod]
      simp [Function.iterate_succ_apply', Prod.ext_iff]

/-- Claim C3: with `iterations = N ≥ 1` (an `int` argument in the
source, hence `N < 2 ^ 31`) and a fake Timing Source returning
`t, t + 1, t + 2, ...` on successive samples, the `BENCH` loop of
`bench.h` executes the code block exactly `N` times and folds exactly
one sample per iteration (`N` samples in all), and the finalized
aggregates are `total = N` exactly and `min = max = 1`. -/
theorem c3_exact_count_and_stats (t N : Nat) (block : α → α) (s : α)
    (h1 : 1 ≤ N) (h2 : N < 2 ^ 31) :
    (benchRunFull (fun i => mkTs (t + i)) N block s).1.total = N ∧
    (benchRunFull (fun i => mkTs (t + i)) N block s).1.min = 1 ∧
    (benchRunFull (fun i => mkTs (t + i)) N block s).1.max = 1 ∧
    (benchRunFull (fun i => mkTs (t + i)) N block s).2 = block^[N] s ∧
    (runDeltas (fun i => mkTs (t + i)) N).length = N := by
  rw [fake_run]
  have hN : ¬ N = 0 := by omega
  rw [if_neg hN]
  have hlt : N < 2 ^ 64 := by
    have hp : (2 : ℕ) ^ 31 < 2 ^ 64 := by norm_num
    omega
  have hmod : N % 2 ^ 64 = N := Nat.mod_eq_of_lt hlt
  exact ⟨hmod, rfl, rfl, rfl, runDeltas_length _ _⟩

/-- Concrete instance of claim C3: `t = 100`, `N = 3`, the block is the
successor function on a counter starting at `0`. -/
theorem c3_witness :
    (benchRunFull (fun i => mkTs (100 + i)) 3 Nat.succ 0).1.total = 3 ∧
    (benchRunFull (fun i => mkTs (100 + i)) 3 Nat.succ 0).1.min = 1 ∧
    (benchRunFull (fun i => mkTs (100 + i)) 3 Nat.succ 0).1.max = 1 ∧
    (benchRunFull (fun i => mkTs (100 + i)) 3 Nat.succ 0).2 = Nat.succ^[3] 0 := by
  have h := c3_exact_count_and_stats 100 3 Nat.succ 0 (by norm_num) (by norm_num)
  exact ⟨h.1, h.2.1, h.2.2.1, h.2.2.2.1⟩

/-- Claim C5 counterexample: a completed run with `iterations = 2 ≥ 1`
whose clock goes backwards on each iteration (start sample
`{sec := 5, nsec := 0}`, end sample `{sec := 1, nsec := 0}`) produces
two wrapped deltas of `2 ^ 64 - 4·10 ^ 9`; the `uint64_t` total then
overflows to `2 ^ 64 - 8·10 ^ 9` and the average `total / 2` drops
below `min` — `min ≤ avg` fails. -/
theorem c5_min_le_avg_counterexample :
    (1 : Nat) ≤ 2 ∧
    ¬ ((benchRun (fun i => if i % 2 = 0 then ⟨5, 0⟩ else ⟨1, 0⟩) 2).min
        ≤ (benchRun (fun i => if i % 2 = 0 then ⟨5, 0⟩ else ⟨1, 0⟩) 2).total / 2) := by
  exact ⟨by norm_num, by decide⟩

/-- Claim C5 (amended): for every completed run with `iterations = n ≥ 1`
whose per-iteration deltas sum to less than `2 ^ 64` (the `uint64_t`
total does not overflow), the finalized aggregates satisfy
`min ≤ total / n ≤ max`, with the average the quotient of the total by
the iteration count, and all three values are non-negative. -/
theorem c5_avg_between_min_max (clock : Nat → Timespec) (n : Nat)
    (h1 : 1 ≤ n) (h2 : (runDeltas clock n).sum < 2 ^ 64) :
    (benchRun clock n).min ≤ (benchRun clock n).total / n ∧
    (benchRun clock n).total / n ≤ (benchRun clock n).max ∧
    0 ≤ (benchRun clock n).min ∧
    0 ≤ (benchRun clock n).total / n ∧
    0 ≤ (benchRun clock n).max := by
  have hlen : (runDeltas clock n).length = n := runDeltas_length clock n
  have hne : runDeltas clock n ≠ [] := by
    intro h0
    rw [h0] at hlen
    simp at hlen
    omega
  have hb : ∀ x ∈ runDeltas clock n, x < 2 ^ 64 := by
    intro x hx
    have hle : x ≤ (runDeltas clock n).sum := List.le_sum_of_mem hx
    omega
  obtain ⟨htot, ⟨hminmem, hminall⟩, ⟨hmaxmem, hmaxall⟩⟩ :=
    accFold_spec (runDeltas clock n) hne hb
  have hrun : benchRun clock n = accFold (runDeltas clock n) :=
    benchRun_eq_accFold clock n
  rw [hrun]
  have htot' : (accFold (runDeltas clock n)).total = (runDeltas clock n).sum := by
    rw [htot]
    exact Nat.mod_eq_of_lt h2
  have hnpos : 0 < n := h1
  have hmin_mul : (accFold (runDeltas clock n)).min * n ≤ (runDeltas clock n).sum := by
    have h := List.card_nsmul_le_sum (runDeltas clock n) _ hminall
    rw [hlen, smul_eq_mul, mul_comm] at h
    exact h
  have hmax_mul : (runDeltas clock n).sum ≤ n * (accFold (runDeltas clock n)).max := by
    have h := List.sum_le_card_nsmul (runDeltas clock n) _ hmaxall
    rw [hlen, smul_eq_mul] at h
    exact h
  refine ⟨?_, ?_, Nat.zero_le _, Nat.zero_le _, Nat.zero_le _⟩
  · rw [htot']
    exact (Nat.le_div_iff_mul_le hnpos).mpr hmin_mul
  · rw [htot']
    calc (runDeltas clock n).sum / n
        ≤ n * (accFold (runDeltas clock n)).max / n := Nat.div_le_div_right hmax_mul
      _ = (accFold (runDeltas clock n)).max := Nat.mul_div_cancel_left _ hnpos

/-- Concrete instance of claim C5: the fake incremental source with
`t = 40`, `n = 2`; every delta is `1`, so the sum is `2 < 2 ^ 64`. -/
theorem c5_witness :
    (benchRun (fun i => mkTs (40 + i)) 2).min
        ≤ (benchRun (fun i => mkTs (40 + i)) 2).total / 2 ∧
    (benchRun (fun i => mkTs (40 + i)) 2).total / 2
        ≤ (benchRun (fun i => mkTs (40 + i)) 2).max := by
  have h := c5_avg_between_min_max (fun i => mkTs (40 + i)) 2
      (by norm_num) (by decide)
  exact ⟨h.1, h.2.1⟩

/-- Claim C6 counterexample: the claim that no state outlives one run is
false for the `part_001` variant — after a `BENCH` run whose start
sample is `{sec := 1, nsec := 0}`, the process-global `__bench_start`
no longer holds its prior value `{sec := 0, nsec := 0}`: the run mutated
state that persists beyond the invocation. -/
theorem c6_global_state_counterexample :
    (part1BENCH ⟨⟨0, 0⟩⟩ ⟨1, 0⟩ ⟨2, 0⟩ 5 id ()).1 ≠ (⟨⟨0, 0⟩⟩ : Part1Global) := by
  decide

/-- Claim C6 (amended): the `BENCH`/`BENCH_RDTSC` macros of `bench.h`
keep all measurement state in invocation-local variables — a run's
aggregates depend only on its own timing samples — but the `part_001`
variant stores the start timestamp in the process-global
`__bench_start`: every run overwrites it, it persists after the run
returns, and the measured value is read through that shared location. -/
theorem c6_part1_global_persistence (g : Part1Global)
    (startNow endNow : Timespec) (n : Nat) (block : α → α) (s : α)
    (c1 c2 : Nat → Timespec) (m : Nat) (hc : ∀ i < 2 * m, c1 i = c2 i) :
    (part1BENCH g startNow endNow n block s).1 = ⟨startNow⟩ ∧
    (part1BENCH g startNow endNow n block s).2.1 = splitDelta startNow endNow ∧
    benchRun c1 m = benchRun c2 m := by
  refine ⟨rfl, rfl, ?_⟩
  unfold benchRun
  have key : ∀ k, k ≤ m →
      benchRunFull c1 k id () = benchRunFull c2 k id () := by
    intro k hk
    induction k with
    | zero => rfl
    | succ j ihj =>
      rw [benchRunFull_succ, benchRunFull_succ, ihj (by omega)]
      unfold benchIter
      rw [hc (2 * j) (by omega), hc (2 * j + 1) (by omega)]
  exact congrArg Prod.fst (key m (le_refl m))

/-- Concrete instance of claim C6: a run from global state
`{sec := 0, nsec := 0}` with start sample `{sec := 1, nsec := 0}`, and
two clocks agreeing on the four samples a two-iteration run reads. -/
theorem c6_witness :
    (part1BENCH ⟨⟨0, 0⟩⟩ ⟨1, 0⟩ ⟨2, 0⟩ 3 id ()).1 = ⟨⟨1, 0⟩⟩ ∧
    benchRun (fun i => mkTs i) 2 = benchRun (fun i => mkTs (min i 3)) 2 := by
  have h := c6_part1_global_persistence ⟨⟨0, 0⟩⟩ ⟨1, 0⟩ ⟨2, 0⟩ 3 id ()
      (fun i => mkTs i) (fun i => mkTs (min i 3)) 2 (by decide)
  exact ⟨h.1, h.2.2⟩

end SingleBench
